import Mathlib

/-!
Shallow embedding of tinycrypt's `hmac.c` and `hmac_prng.c`.

Bytes are modelled as `Nat` (values below 256 in practice), byte buffers as
`List Nat` where a C `(pointer, length)` pair becomes the list of the bytes
the function reads; a possibly-null pointer becomes an `Option`.

SHA-256 itself (`sha256.c`) is not part of the sources under scrutiny; the
specification treats it as an external collaborator exposing a streaming
init/update/final interface with 64-byte blocks and 32-byte digests.  The
whole development is therefore parametric in a digest function
`H : List Nat → List Nat`; theorems that need it assume `∀ m, (H m).length = 32`.
-/

namespace Tinycrypt

/-- Return codes.  Modelled from the spec: §6 lists the three observable
codes `SUCCESS`, `FAIL` and `RESEED_REQUIRED` (`constants.h` is not under
the sources). -/
inductive TCStatus where
  | success
  | fail
  | reseedReq
deriving DecidableEq, Repr

/-- `TC_SHA256_BLOCK_SIZE` (64 bytes). -/
def TC_SHA256_BLOCK_SIZE : Nat := 64

/-- `TC_SHA256_DIGEST_SIZE` (32 bytes). -/
def TC_SHA256_DIGEST_SIZE : Nat := 32

/-- Modelled from the spec: the external SHA-256 collaborator's streaming
state.  Only its observable contract is specified (init resets, update
absorbs, final digests the absorbed bytes), so the state is modelled as the
list of bytes absorbed since the last init. -/
structure TCSha256State where
  absorbed : List Nat
deriving DecidableEq, Repr

/-- Modelled from the spec: `init(h)` resets `h` to the initial state. -/
def tc_sha256_init : TCSha256State := ⟨[]⟩

/-- Modelled from the spec: `update(h, bytes, len)` absorbs bytes. -/
def tc_sha256_update (s : TCSha256State) (data : List Nat) : TCSha256State :=
  ⟨s.absorbed ++ data⟩

/-- Modelled from the spec: `final(h, out32)` writes the 32-byte digest of
everything absorbed and invalidates `h` until re-init (the invalidated state
is modelled as the zeroed/initial state; every caller in the sources
re-inits or wipes before the next use, so this choice is unobservable). -/
def tc_sha256_final (H : List Nat → List Nat) (s : TCSha256State) :
    List Nat × TCSha256State :=
  (H s.absorbed, ⟨[]⟩)

/-- The HMAC state: the 128-byte key schedule and the embedded SHA-256
streaming state (`struct tc_hmac_state_struct`). -/
structure THmacState where
  key : List Nat
  hash_state : TCSha256State
deriving DecidableEq, Repr

/-- The all-zero HMAC state produced by `_set(ctx, 0, sizeof(*ctx))`:
128 zero bytes of schedule and the zeroed SHA-256 state. -/
def zeroHmacState : THmacState :=
  { key := List.replicate 128 0, hash_state := ⟨[]⟩ }

/-- `rekey` from `hmac.c`: fills the 128-byte schedule from `new_key`
(whose length plays the role of `key_size`): bytes `i < key_size` get
`0x36 ^ new_key[i]` resp. `0x5c ^ new_key[i]` at offset 64, the remaining
bytes up to the block size get the bare pads.  The C routine writes the two
halves interleaved in one pass; the result is their concatenation. -/
def rekey (new_key : List Nat) : List Nat :=
  ((List.range TC_SHA256_BLOCK_SIZE).map fun i =>
    if i < new_key.length then 0x36 ^^^ new_key.getD i 0 else 0x36) ++
  ((List.range TC_SHA256_BLOCK_SIZE).map fun i =>
    if i < new_key.length then 0x5c ^^^ new_key.getD i 0 else 0x5c)

/-- Core of `tc_hmac_set_key` once the argument checks have passed.
Short keys (`key_size ≤ 64`) go straight to `rekey`; the three dummy
SHA-256 calls of that branch touch only throwaway locals and leave `ctx`
alone.  Long keys are hashed with the context's own SHA-256 state (the
digest is parked in `ctx->key[32..63]` and then consumed by `rekey`, whose
write pattern never clobbers a byte before reading it, so the net schedule
is `rekey` of the digest). -/
def hmacSetKeyCore (H : List Nat → List Nat) (ctx : THmacState)
    (key : List Nat) : THmacState :=
  if key.length ≤ TC_SHA256_BLOCK_SIZE then
    { ctx with key := rekey key }
  else
    let hs := tc_sha256_update tc_sha256_init key
    let fin := tc_sha256_final H hs
    { key := rekey fin.1, hash_state := fin.2 }

/-- Core of `tc_hmac_init`: re-init the SHA-256 state and absorb the first
64 bytes of the schedule. -/
def hmacInitCore (ctx : THmacState) : THmacState :=
  { ctx with
    hash_state := tc_sha256_update tc_sha256_init
      (ctx.key.take TC_SHA256_BLOCK_SIZE) }

/-- Core of `tc_hmac_update`: forward the data to the SHA-256 state. -/
def hmacUpdateCore (ctx : THmacState) (data : List Nat) : THmacState :=
  { ctx with hash_state := tc_sha256_update ctx.hash_state data }

/-- Core of `tc_hmac_final`: finalize the inner hash, rehash the outer half
of the schedule followed by the inner tag, and wipe the whole state
(`_set(ctx, 0, sizeof(*ctx))`).  Returns the tag and the wiped state. -/
def hmacFinalCore (H : List Nat → List Nat) (ctx : THmacState) :
    List Nat × THmacState :=
  let innerFin := tc_sha256_final H ctx.hash_state
  let hs := tc_sha256_update
    (tc_sha256_update tc_sha256_init (ctx.key.drop TC_SHA256_BLOCK_SIZE))
    innerFin.1
  let outerFin := tc_sha256_final H hs
  (outerFin.1, zeroHmacState)

/-- `tc_hmac_set_key(ctx, key, key_size)`.  `ctx` and `key` are possible
null pointers; a non-null `key` pointer together with `key_size` is the
list of the `key_size` bytes read.  Returns the status and the state the
caller observes afterwards. -/
def tc_hmac_set_key (H : List Nat → List Nat) (ctx : Option THmacState)
    (key : Option (List Nat)) : TCStatus × Option THmacState :=
  match ctx, key with
  | some c, some k =>
      if k.length = 0 then (.fail, some c)
      else (.success, some (hmacSetKeyCore H c k))
  | _, _ => (.fail, ctx)

/-- `tc_hmac_init(ctx)`. -/
def tc_hmac_init (ctx : Option THmacState) : TCStatus × Option THmacState :=
  match ctx with
  | some c => (.success, some (hmacInitCore c))
  | none => (.fail, none)

/-- `tc_hmac_update(ctx, data, data_length)`; `data` is the list of bytes
read (the C code performs no null check on `data`). -/
def tc_hmac_update (ctx : Option THmacState) (data : List Nat) :
    TCStatus × Option THmacState :=
  match ctx with
  | some c => (.success, some (hmacUpdateCore c data))
  | none => (.fail, none)

/-- `tc_hmac_final(tag, taglen, ctx)`.  `tagPtr` records whether the output
pointer is non-null; on success the second component is the 32 bytes
written through it. -/
def tc_hmac_final (H : List Nat → List Nat) (tagPtr : Bool) (taglen : Nat)
    (ctx : Option THmacState) :
    TCStatus × Option (List Nat) × Option THmacState :=
  match ctx with
  | some c =>
      if tagPtr = false ∨ taglen ≠ TC_SHA256_DIGEST_SIZE then
        (.fail, none, some c)
      else
        let fin := hmacFinalCore H c
        (.success, some fin.1, some fin.2)
  | none => (.fail, none, none)

/-! ### HMAC-PRNG (`hmac_prng.c`) -/

/-- `MIN_SLEN`: minimum seed length in bytes. -/
def MIN_SLEN : Nat := 32

/-- `MAX_SLEN = UINT32_MAX`. -/
def MAX_SLEN : Nat := 2 ^ 32 - 1

/-- `MAX_PLEN = UINT32_MAX`. -/
def MAX_PLEN : Nat := 2 ^ 32 - 1

/-- `MAX_ALEN = UINT32_MAX`. -/
def MAX_ALEN : Nat := 2 ^ 32 - 1

/-- `MAX_GENS = UINT32_MAX`. -/
def MAX_GENS : Nat := 2 ^ 32 - 1

/-- `MAX_OUT = 1 << 19`. -/
def MAX_OUT : Nat := 2 ^ 19

/-- The DRBG state (`struct tc_hmac_prng_struct`): embedded HMAC state, the
32-byte working key, the 32-byte value `v`, and the reseed countdown. -/
structure THmacPrng where
  h : THmacState
  key : List Nat
  v : List Nat
  countdown : Nat
deriving DecidableEq, Repr

/-- The internal `update` of `hmac_prng.c` (assumes `prng != NULL`).
`data` and `additional_data` are possibly-null byte strings; a pointer that
is non-null with length `n` becomes `some` of the `n` bytes.  Every HMAC
sub-call is the composition of the core operations above; the status checks
of `tc_hmac_set_key`/`tc_hmac_final` all pass here (32-byte keys and tags,
non-null state). -/
def prngUpdate (H : List Nat → List Nat) (p : THmacPrng)
    (data additional_data : Option (List Nat)) : THmacPrng :=
  let h0 := hmacSetKeyCore H p.h p.key
  let h1 := hmacUpdateCore (hmacInitCore h0) p.v
  let h2 := hmacUpdateCore h1 [0x00]
  let h3 := match data with
    | some d => if d.length ≠ 0 then hmacUpdateCore h2 d else h2
    | none => h2
  let h4 := match additional_data with
    | some a => if a.length ≠ 0 then hmacUpdateCore h3 a else h3
    | none => h3
  let fin1 := hmacFinalCore H h4
  let key1 := fin1.1
  let h5 := hmacUpdateCore (hmacInitCore (hmacSetKeyCore H fin1.2 key1)) p.v
  let fin2 := hmacFinalCore H h5
  let v1 := fin2.1
  if data = none ∨ data = some [] then
    { h := fin2.2, key := key1, v := v1, countdown := p.countdown }
  else
    let d := data.getD []
    let g0 := hmacSetKeyCore H fin2.2 key1
    let g1 := hmacUpdateCore (hmacInitCore g0) v1
    let g2 := hmacUpdateCore g1 [0x01]
    let g3 := hmacUpdateCore g2 d
    let g4 := match additional_data with
      | some a => if a.length ≠ 0 then hmacUpdateCore g3 a else g3
      | none => g3
    let fin3 := hmacFinalCore H g4
    let key2 := fin3.1
    let g5 := hmacUpdateCore (hmacInitCore (hmacSetKeyCore H fin3.2 key2)) v1
    let fin4 := hmacFinalCore H g5
    { h := fin4.2, key := key2, v := fin4.1, countdown := p.countdown }

/-- `tc_hmac_prng_init(prng, personalization, plen)`.  `personalization`
together with `plen` is modelled as the list of the `plen` bytes read (or
`none` for a null pointer). -/
def tc_hmac_prng_init (H : List Nat → List Nat) (prng : Option THmacPrng)
    (personalization : Option (List Nat)) : TCStatus × Option THmacPrng :=
  match prng, personalization with
  | some p, some pers =>
      if pers.length > MAX_PLEN then (.fail, some p)
      else
        let p0 := { p with key := List.replicate 32 0x00,
                           v := List.replicate 32 0x01 }
        let p1 := prngUpdate H p0 (some pers) none
        (.success, some { p1 with countdown := 0 })
  | _, _ => (.fail, prng)

/-- `tc_hmac_prng_reseed(prng, seed, seedlen, additional_input,
additionallen)`. -/
def tc_hmac_prng_reseed (H : List Nat → List Nat) (prng : Option THmacPrng)
    (seed : Option (List Nat)) (additional_input : Option (List Nat)) :
    TCStatus × Option THmacPrng :=
  match prng, seed with
  | some p, some s =>
      if s.length < MIN_SLEN ∨ s.length > MAX_SLEN then (.fail, some p)
      else
        match additional_input with
        | some a =>
            if a.length = 0 ∨ a.length > MAX_ALEN then (.fail, some p)
            else
              let p1 := prngUpdate H p (some s) (some a)
              (.success, some { p1 with countdown := MAX_GENS })
        | none =>
            let p1 := prngUpdate H p (some s) none
            (.success, some { p1 with countdown := MAX_GENS })
  | _, _ => (.fail, prng)

/-- The output loop of `tc_hmac_prng_generate`: while bytes remain, rotate
`v ← HMAC(key, v)` through the embedded HMAC state and copy
`min(32, outlen)` bytes of the new `v` into the output.  Returns the bytes
written, the final `v`, and the final embedded HMAC state. -/
def generateLoop (H : List Nat → List Nat) (h : THmacState)
    (key v : List Nat) (outlen : Nat) : List Nat × List Nat × THmacState :=
  if outlen = 0 then ([], v, h)
  else
    let h1 := hmacUpdateCore (hmacInitCore (hmacSetKeyCore H h key)) v
    let fin := hmacFinalCore H h1
    let v1 := fin.1
    let bufferlen := if TC_SHA256_DIGEST_SIZE > outlen
      then outlen else TC_SHA256_DIGEST_SIZE
    let rest := generateLoop H fin.2 key v1
      (if outlen > TC_SHA256_DIGEST_SIZE
        then outlen - TC_SHA256_DIGEST_SIZE else 0)
    (v1.take bufferlen ++ rest.1, rest.2)
termination_by outlen
decreasing_by
  simp only [TC_SHA256_DIGEST_SIZE]
  split <;> omega

/-- `tc_hmac_prng_generate(out, outlen, prng)`.  `outPtr` records whether
the output pointer is non-null; on success the middle component is the
`outlen` bytes written through it. -/
def tc_hmac_prng_generate (H : List Nat → List Nat) (outPtr : Bool)
    (outlen : Nat) (prng : Option THmacPrng) :
    TCStatus × Option (List Nat) × Option THmacPrng :=
  match prng with
  | some p =>
      if outPtr = false ∨ outlen = 0 ∨ outlen > MAX_OUT then
        (.fail, none, some p)
      else if p.countdown = 0 then
        (.reseedReq, none, some p)
      else
        let res := generateLoop H p.h p.key p.v outlen
        let p1 := { p with countdown := p.countdown - 1,
                           v := res.2.1, h := res.2.2 }
        let p2 := prngUpdate H p1 none none
        (.success, some res.1, some p2)
  | none => (.fail, none, none)

/-! ### Helper lemmas -/

/-- The inner-pad half of the schedule that the claimed key-schedule rule
describes: `0x36 ⊕ K[i]` for `i < L`, bare `0x36` for `L ≤ i < 64`. -/
def ipadHalf (K : List Nat) : List Nat :=
  (List.range 64).map fun i =>
    if i < K.length then 0x36 ^^^ K.getD i 0 else 0x36

/-- The outer-pad half of the schedule that the claimed key-schedule rule
describes: `0x5c ⊕ K[i]` for `i < L`, bare `0x5c` for `L ≤ i < 64`. -/
def opadHalf (K : List Nat) : List Nat :=
  (List.range 64).map fun i =>
    if i < K.length then 0x5c ^^^ K.getD i 0 else 0x5c

lemma rekey_eq (K : List Nat) : rekey K = ipadHalf K ++ opadHalf K := rfl

lemma ipadHalf_length (K : List Nat) : (ipadHalf K).length = 64 := by
  simp [ipadHalf]

lemma opadHalf_length (K : List Nat) : (opadHalf K).length = 64 := by
  simp [opadHalf]

lemma rekey_length (K : List Nat) : (rekey K).length = 128 := by
  simp [rekey, TC_SHA256_BLOCK_SIZE]

lemma rekey_take (K : List Nat) : (rekey K).take 64 = ipadHalf K := by
  rw [rekey_eq, ← ipadHalf_length K, List.take_left]

lemma rekey_drop (K : List Nat) : (rekey K).drop 64 = opadHalf K := by
  rw [rekey_eq, ← ipadHalf_length K, List.drop_left]

lemma rangeMap_getD (f : Nat → Nat) (n i : Nat) (h : i < n) :
    ((List.range n).map f).getD i 0 = f i := by
  simp [List.getD_eq_getElem?_getD, List.getElem?_map, List.getElem?_range, h]

lemma ipadHalf_getD (K : List Nat) (i : Nat) (h : i < 64) :
    (ipadHalf K).getD i 0 =
      if i < K.length then 0x36 ^^^ K.getD i 0 else 0x36 :=
  rangeMap_getD _ _ _ h

lemma opadHalf_getD (K : List Nat) (i : Nat) (h : i < 64) :
    (opadHalf K).getD i 0 =
      if i < K.length then 0x5c ^^^ K.getD i 0 else 0x5c :=
  rangeMap_getD _ _ _ h

lemma rekey_getD_lo (K : List Nat) (i : Nat) (h : i < 64) :
    (rekey K).getD i 0 =
      if i < K.length then 0x36 ^^^ K.getD i 0 else 0x36 := by
  rw [rekey_eq]
  rw [show (ipadHalf K ++ opadHalf K).getD i 0 = (ipadHalf K).getD i 0 by
    simp [List.getD_eq_getElem?_getD, List.getElem?_append, ipadHalf_length, h]]
  exact ipadHalf_getD K i h

lemma rekey_getD_hi (K : List Nat) (i : Nat) (h64 : 64 ≤ i) (h : i < 128) :
    (rekey K).getD i 0 =
      if i - 64 < K.length then 0x5c ^^^ K.getD (i - 64) 0 else 0x5c := by
  rw [rekey_eq]
  rw [show (ipadHalf K ++ opadHalf K).getD i 0 = (opadHalf K).getD (i - 64) 0 by
    simp [List.getD_eq_getElem?_getD, List.getElem?_append, ipadHalf_length,
      Nat.not_lt.mpr h64]]
  exact opadHalf_getD K (i - 64) (by omega)

/-- Folding `hmacUpdateCore` over message chunks leaves the key schedule
alone and appends the concatenation of the chunks to the absorbed bytes. -/
lemma foldl_hmacUpdateCore (chunks : List (List Nat)) (c : THmacState) :
    chunks.foldl hmacUpdateCore c =
      { c with hash_state := ⟨c.hash_state.absorbed ++ chunks.flatten⟩ } := by
  induction chunks generalizing c with
  | nil => simp
  | cons d rest ih =>
      simp only [List.foldl_cons, List.flatten_cons, ih, hmacUpdateCore,
        tc_sha256_update, List.append_assoc]

lemma hmacSetKeyCore_short (H : List Nat → List Nat) (ctx : THmacState)
    (K : List Nat) (h : K.length ≤ 64) :
    hmacSetKeyCore H ctx K = { ctx with key := rekey K } := by
  simp [hmacSetKeyCore, TC_SHA256_BLOCK_SIZE, h]

lemma hmacSetKeyCore_long (H : List Nat → List Nat) (ctx : THmacState)
    (K : List Nat) (h : ¬ K.length ≤ 64) :
    hmacSetKeyCore H ctx K = { key := rekey (H K), hash_state := ⟨[]⟩ } := by
  simp [hmacSetKeyCore, TC_SHA256_BLOCK_SIZE, h, tc_sha256_update,
    tc_sha256_init, tc_sha256_final]

/-- A concrete digest function with 32-byte outputs, used to instantiate
the parametric theorems on concrete inputs. -/
def constH : List Nat → List Nat := fun _ => List.replicate 32 0

lemma constH_length : ∀ m, (constH m).length = 32 := fun _ => by
  simp [constH]

/-! ### Claims -/

/-- C1: for a key of length `1 ≤ L ≤ 64` and a message absorbed across any
split of update calls, the sequence `tc_hmac_set_key`, `tc_hmac_init`,
updates, `tc_hmac_final` (taglen 32) succeeds; the schedule is
`0x36 ⊕ K[i]` / `0x36` in the inner half and `0x5c ⊕ K[i]` / `0x5c` in the
outer half; and the tag is the 32-byte value
`H((K ⊕ opad) ‖ H((K ⊕ ipad) ‖ M))`. -/
theorem hmac_short_key_tag (H : List Nat → List Nat)
    (hH : ∀ m, (H m).length = 32) (ctx : THmacState) (K : List Nat)
    (hL1 : 1 ≤ K.length) (hL64 : K.length ≤ 64)
    (chunks : List (List Nat)) :
    (tc_hmac_set_key H (some ctx) (some K)) =
      (.success, some (hmacSetKeyCore H ctx K)) ∧
    (∀ i, i < K.length →
      (hmacSetKeyCore H ctx K).key.getD i 0 = 0x36 ^^^ K.getD i 0) ∧
    (∀ i, K.length ≤ i → i < 64 →
      (hmacSetKeyCore H ctx K).key.getD i 0 = 0x36) ∧
    (∀ i, i < K.length →
      (hmacSetKeyCore H ctx K).key.getD (64 + i) 0 = 0x5c ^^^ K.getD i 0) ∧
    (∀ i, K.length ≤ i → i < 64 →
      (hmacSetKeyCore H ctx K).key.getD (64 + i) 0 = 0x5c) ∧
    tc_hmac_init (some (hmacSetKeyCore H ctx K)) =
      (.success, some (hmacInitCore (hmacSetKeyCore H ctx K))) ∧
    (∀ s d, tc_hmac_update (some s) d = (.success, some (hmacUpdateCore s d))) ∧
    tc_hmac_final H true 32
        (some (chunks.foldl hmacUpdateCore
          (hmacInitCore (hmacSetKeyCore H ctx K)))) =
      (.success,
       some (H (opadHalf K ++ H (ipadHalf K ++ chunks.flatten))),
       some zeroHmacState) ∧
    (H (opadHalf K ++ H (ipadHalf K ++ chunks.flatten))).length = 32 := by
  have hkey : (hmacSetKeyCore H ctx K).key = rekey K := by
    rw [hmacSetKeyCore_short H ctx K hL64]
  refine ⟨?_, ?_, ?_, ?_, ?_, rfl, fun s d => rfl, ?_, hH _⟩
  · simp [tc_hmac_set_key, show K.length ≠ 0 by omega]
  · intro i hi
    rw [hkey, rekey_getD_lo K i (by omega)]
    simp [hi]
  · intro i hKi hi
    rw [hkey, rekey_getD_lo K i hi]
    simp [Nat.not_lt.mpr hKi]
  · intro i hi
    rw [hkey, rekey_getD_hi K (64 + i) (by omega) (by omega)]
    simp [show 64 + i - 64 = i by omega, hi]
  · intro i hKi hi
    rw [hkey, rekey_getD_hi K (64 + i) (by omega) (by omega)]
    simp [show 64 + i - 64 = i by omega, Nat.not_lt.mpr hKi]
  · have habs : (chunks.foldl hmacUpdateCore
        (hmacInitCore (hmacSetKeyCore H ctx K))).hash_state.absorbed =
        ipadHalf K ++ chunks.flatten := by
      rw [foldl_hmacUpdateCore]
      simp [hmacInitCore, tc_sha256_update, tc_sha256_init, hkey,
        TC_SHA256_BLOCK_SIZE, rekey_take]
    have hsched : (chunks.foldl hmacUpdateCore
        (hmacInitCore (hmacSetKeyCore H ctx K))).key = rekey K := by
      rw [foldl_hmacUpdateCore]
      simp [hmacInitCore, hkey]
    simp only [tc_hmac_final, TC_SHA256_DIGEST_SIZE]
    rw [if_neg (by simp)]
    simp only [hmacFinalCore, tc_sha256_final, tc_sha256_update,
      tc_sha256_init, habs, hsched, TC_SHA256_BLOCK_SIZE, rekey_drop,
      List.nil_append]

/-- C1 witness: the theorem instantiated at a concrete digest function,
key and chunk split. -/
theorem hmac_short_key_tag_spot :
    tc_hmac_final constH true 32
        (some (([[1], [2, 3]] : List (List Nat)).foldl hmacUpdateCore
          (hmacInitCore (hmacSetKeyCore constH zeroHmacState [11])))) =
      (.success,
       some (constH (opadHalf [11] ++
         constH (ipadHalf [11] ++ ([[1], [2, 3]] : List (List Nat)).flatten))),
       some zeroHmacState) :=
  (hmac_short_key_tag constH constH_length zeroHmacState [11] (by decide)
    (by decide) [[1], [2, 3]]).2.2.2.2.2.2.2.1

/-- C2: for a key of length `L > 64`, `tc_hmac_set_key` succeeds and
produces exactly the schedule it would produce for the 32-byte key
`K' = SHA256(K)`: bytes 0..31 are `0x36 ⊕ K'[i]`, bytes 32..63 are `0x36`,
bytes 64..95 are `0x5c ⊕ K'[i]`, bytes 96..127 are `0x5c`. -/
theorem hmac_long_key_schedule (H : List Nat → List Nat)
    (hH : ∀ m, (H m).length = 32) (ctx ctx' : THmacState) (K : List Nat)
    (hL : 64 < K.length) :
    (tc_hmac_set_key H (some ctx) (some K)) =
      (.success, some (hmacSetKeyCore H ctx K)) ∧
    (hmacSetKeyCore H ctx K).key = (hmacSetKeyCore H ctx' (H K)).key ∧
    (∀ i, i < 32 →
      (hmacSetKeyCore H ctx K).key.getD i 0 = 0x36 ^^^ (H K).getD i 0) ∧
    (∀ i, 32 ≤ i → i < 64 →
      (hmacSetKeyCore H ctx K).key.getD i 0 = 0x36) ∧
    (∀ i, i < 32 →
      (hmacSetKeyCore H ctx K).key.getD (64 + i) 0 =
        0x5c ^^^ (H K).getD i 0) ∧
    (∀ i, 32 ≤ i → i < 64 →
      (hmacSetKeyCore H ctx K).key.getD (64 + i) 0 = 0x5c) := by
  have hkey : (hmacSetKeyCore H ctx K).key = rekey (H K) := by
    rw [hmacSetKeyCore_long H ctx K (by omega)]
  have hlen : (H K).length = 32 := hH K
  refine ⟨?_, ?_, ?_, ?_, ?_, ?_⟩
  · simp [tc_hmac_set_key, show K.length ≠ 0 by omega]
  · rw [hkey, hmacSetKeyCore_short H ctx' (H K) (by omega)]
  · intro i hi
    rw [hkey, rekey_getD_lo (H K) i (by omega)]
    simp [hlen, hi]
  · intro i h32 hi
    rw [hkey, rekey_getD_lo (H K) i hi]
    simp [hlen, show ¬ i < 32 by omega]
  · intro i hi
    rw [hkey, rekey_getD_hi (H K) (64 + i) (by omega) (by omega)]
    simp [hlen, show 64 + i - 64 = i by omega, hi]
  · intro i h32 hi
    rw [hkey, rekey_getD_hi (H K) (64 + i) (by omega) (by omega)]
    simp [hlen, show 64 + i - 64 = i by omega, show ¬ i < 32 by omega]

/-- C2 witness: a 65-byte key yields the same schedule as its 32-byte
digest would. -/
theorem hmac_long_key_schedule_spot :
    (hmacSetKeyCore constH zeroHmacState (List.replicate 65 170)).key =
      (hmacSetKeyCore constH zeroHmacState
        (constH (List.replicate 65 170))).key :=
  (hmac_long_key_schedule constH constH_length zeroHmacState zeroHmacState
    (List.replicate 65 170) (by simp)).2.1

/-- C7: a successful `tc_hmac_final` wipes the whole HMAC state: the
resulting state is the all-zero one, whose 128 schedule bytes all read as
zero and whose embedded SHA-256 state is the zeroed/initial one. -/
theorem hmac_final_wipes_state (H : List Nat → List Nat) (c : THmacState) :
    (tc_hmac_final H true 32 (some c)).1 = .success ∧
    (tc_hmac_final H true 32 (some c)).2.2 = some zeroHmacState ∧
    zeroHmacState.key.length = 128 ∧
    (∀ i, zeroHmacState.key.getD i 0 = 0) ∧
    zeroHmacState.hash_state = tc_sha256_init := by
  refine ⟨rfl, rfl, by simp [zeroHmacState], ?_, rfl⟩
  intro i
  simp only [zeroHmacState, List.getD_eq_getElem?_getD,
    List.getElem?_replicate]
  split <;> simp

/-- C8: each HMAC operation fails exactly under its listed argument
conditions and leaves the caller-visible state unchanged (and writes no
tag) on rejection. -/
theorem hmac_arg_validation (H : List Nat → List Nat) :
    (∀ ctx key,
      ((tc_hmac_set_key H ctx key).1 = .fail ↔
        ctx = none ∨ key = none ∨ key = some []) ∧
      ((tc_hmac_set_key H ctx key).1 = .fail →
        (tc_hmac_set_key H ctx key).2 = ctx)) ∧
    (∀ ctx, ((tc_hmac_init ctx).1 = .fail ↔ ctx = none) ∧
      ((tc_hmac_init ctx).1 = .fail → (tc_hmac_init ctx).2 = ctx)) ∧
    (∀ ctx data, ((tc_hmac_update ctx data).1 = .fail ↔ ctx = none) ∧
      ((tc_hmac_update ctx data).1 = .fail →
        (tc_hmac_update ctx data).2 = ctx)) ∧
    (∀ tagPtr taglen ctx,
      ((tc_hmac_final H tagPtr taglen ctx).1 = .fail ↔
        tagPtr = false ∨ taglen ≠ 32 ∨ ctx = none) ∧
      ((tc_hmac_final H tagPtr taglen ctx).1 = .fail →
        (tc_hmac_final H tagPtr taglen ctx).2.2 = ctx ∧
        (tc_hmac_final H tagPtr taglen ctx).2.1 = none)) := by
  refine ⟨?_, ?_, ?_, ?_⟩
  · intro ctx key
    match ctx, key with
    | none, none => simp [tc_hmac_set_key]
    | none, some k => simp [tc_hmac_set_key]
    | some c, none => simp [tc_hmac_set_key]
    | some c, some k =>
        by_cases hk : k.length = 0
        · simp [tc_hmac_set_key, hk, List.length_eq_zero.mp hk]
        · simp [tc_hmac_set_key, hk,
            show k ≠ [] from fun h => hk (by simp [h])]
  · intro ctx
    cases ctx <;> simp [tc_hmac_init]
  · intro ctx data
    cases ctx <;> simp [tc_hmac_update]
  · intro tagPtr taglen ctx
    match ctx with
    | none => simp [tc_hmac_final]
    | some c =>
        cases tagPtr with
        | false => simp [tc_hmac_final, TC_SHA256_DIGEST_SIZE]
        | true =>
            by_cases hl : taglen = 32 <;>
              simp [tc_hmac_final, TC_SHA256_DIGEST_SIZE, hl]

/-- C8 witness: a null context is rejected by `tc_hmac_set_key`. -/
theorem hmac_arg_validation_spot :
    (tc_hmac_set_key constH none none).1 = .fail :=
  ((hmac_arg_validation constH).1 none none).1.mpr (Or.inl rfl)

/-- A sample DRBG state used to instantiate the parametric theorems. -/
def samplePrng : THmacPrng :=
  { h := zeroHmacState, key := List.replicate 32 0,
    v := List.replicate 32 1, countdown := 5 }

/-- C4: with `countdown = 0` and otherwise valid arguments,
`tc_hmac_prng_generate` returns `RESEED_REQUIRED`, writes nothing, and
leaves the whole DRBG state unchanged. -/
theorem prng_generate_reseed_required (H : List Nat → List Nat)
    (p : THmacPrng) (outlen : Nat) (hcd : p.countdown = 0)
    (h1 : 1 ≤ outlen) (h2 : outlen ≤ MAX_OUT) :
    tc_hmac_prng_generate H true outlen (some p) =
      (.reseedReq, none, some p) := by
  simp [tc_hmac_prng_generate, hcd, show ¬ outlen = 0 by omega,
    Nat.not_lt.mpr h2]

/-- C4 witness: a fresh countdown-0 state answers `RESEED_REQUIRED` to a
16-byte request. -/
theorem prng_generate_reseed_required_spot :
    tc_hmac_prng_generate constH true 16
        (some { samplePrng with countdown := 0 }) =
      (.reseedReq, none, some { samplePrng with countdown := 0 }) :=
  prng_generate_reseed_required constH { samplePrng with countdown := 0 } 16
    rfl (by omega) (by norm_num [MAX_OUT])

/-- C5: `tc_hmac_prng_reseed` fails exactly for a null state, a null seed,
a seed shorter than 32 bytes, or non-null additional input of length 0
(within the `uint32` ranges the C interface can express), leaving the state
untouched in every failure case; otherwise it runs the internal update with
the seed and the additional input when provided, sets the countdown to
`2^32 - 1`, and returns `SUCCESS`. -/
theorem prng_reseed_validation (H : List Nat → List Nat)
    (prng : Option THmacPrng) (seed additional : Option (List Nat))
    (hs : ∀ s, seed = some s → s.length ≤ MAX_SLEN)
    (ha : ∀ a, additional = some a → a.length ≤ MAX_ALEN) :
    ((tc_hmac_prng_reseed H prng seed additional).1 = .fail ↔
      prng = none ∨ seed = none ∨
      (∃ s, seed = some s ∧ s.length < MIN_SLEN) ∨ additional = some []) ∧
    ((tc_hmac_prng_reseed H prng seed additional).1 = .fail →
      (tc_hmac_prng_reseed H prng seed additional).2 = prng) ∧
    (∀ p s, prng = some p → seed = some s → MIN_SLEN ≤ s.length →
      additional ≠ some [] →
      tc_hmac_prng_reseed H prng seed additional =
        (.success, some { prngUpdate H p (some s) additional with
          countdown := MAX_GENS })) := by
  match prng, seed with
  | none, none => simp [tc_hmac_prng_reseed]
  | none, some s => simp [tc_hmac_prng_reseed]
  | some p, none => simp [tc_hmac_prng_reseed]
  | some p, some s =>
      have hsl : s.length ≤ MAX_SLEN := hs s rfl
      by_cases hshort : s.length < MIN_SLEN
      · simp [tc_hmac_prng_reseed, hshort]
      · match additional with
        | none =>
            simp [tc_hmac_prng_reseed, hshort, Nat.not_lt.mpr hsl]
        | some a =>
            have hal : a.length ≤ MAX_ALEN := ha a rfl
            by_cases haz : a.length = 0
            · simp [tc_hmac_prng_reseed, hshort, Nat.not_lt.mpr hsl, haz,
                List.length_eq_zero.mp haz]
            · simp [tc_hmac_prng_reseed, hshort, Nat.not_lt.mpr hsl, haz,
                Nat.not_lt.mpr hal,
                show a ≠ [] from fun h => haz (by simp [h])]

/-- C5 witness: a 31-byte seed is rejected and the state is untouched. -/
theorem prng_reseed_validation_spot :
    (tc_hmac_prng_reseed constH (some samplePrng)
      (some (List.replicate 31 0)) none).1 = .fail :=
  (prng_reseed_validation constH (some samplePrng)
      (some (List.replicate 31 0)) none
      (fun s h => by cases h; norm_num [MAX_SLEN])
      (fun a h => by cases h)).1.mpr
    (Or.inr (Or.inr (Or.inl ⟨List.replicate 31 0, rfl, by
      norm_num [MIN_SLEN]⟩)))

/-- C6: `tc_hmac_prng_init` with a non-null state and personalization
pointer succeeds and leaves the state exactly as produced by `key ← 0^32`,
`v ← 0x01^32`, the internal update with the personalization and no
additional data, then `countdown ← 0`; a null state or null personalization
pointer yields `FAIL` with no mutation. -/
theorem prng_init_spec (H : List Nat → List Nat) :
    (∀ p pers, pers.length ≤ MAX_PLEN →
      tc_hmac_prng_init H (some p) (some pers) =
        (.success, some
          { prngUpdate H
              { p with key := List.replicate 32 0x00,
                       v := List.replicate 32 0x01 }
              (some pers) none with countdown := 0 })) ∧
    (∀ prng, tc_hmac_prng_init H prng none = (.fail, prng)) ∧
    (∀ pers, tc_hmac_prng_init H none pers = (.fail, none)) := by
  refine ⟨?_, ?_, ?_⟩
  · intro p pers hlen
    simp [tc_hmac_prng_init, Nat.not_lt.mpr hlen]
  · intro prng
    cases prng <;> simp [tc_hmac_prng_init]
  · intro pers
    cases pers <;> simp [tc_hmac_prng_init]

/-- C6 witness: instantiation with a one-byte personalization string. -/
theorem prng_init_spec_spot :
    tc_hmac_prng_init constH (some samplePrng) (some [7]) =
      (.success, some
        { prngUpdate constH
            { samplePrng with key := List.replicate 32 0x00,
                              v := List.replicate 32 0x01 }
            (some [7]) none with countdown := 0 }) :=
  (prng_init_spec constH).1 samplePrng [7] (by norm_num [MAX_PLEN])

/-! ### One-shot HMAC and the generate-loop characterization -/

/-- One-shot HMAC of `msg` under `key`: the composition
`set_key`, `init`, a single `update`, `final` of the core operations. -/
def hmacOf (H : List Nat → List Nat) (key msg : List Nat) : List Nat :=
  (hmacFinalCore H
    (hmacUpdateCore (hmacInitCore (hmacSetKeyCore H zeroHmacState key))
      msg)).1

lemma hmacSetKeyCore_key_indep (H : List Nat → List Nat)
    (h h' : THmacState) (key : List Nat) :
    (hmacSetKeyCore H h key).key = (hmacSetKeyCore H h' key).key := by
  by_cases hk : key.length ≤ TC_SHA256_BLOCK_SIZE <;>
    simp [hmacSetKeyCore, hk]

lemma hmacUpdateCore_append (c : THmacState) (a b : List Nat) :
    hmacUpdateCore (hmacUpdateCore c a) b = hmacUpdateCore c (a ++ b) := by
  simp [hmacUpdateCore, tc_sha256_update, List.append_assoc]

/-- A full `set_key`/`init`/`update`/`final` round started from any HMAC
state produces the one-shot HMAC and the wiped state. -/
lemma hmacRound (H : List Nat → List Nat) (h : THmacState)
    (key msg : List Nat) :
    hmacFinalCore H
        (hmacUpdateCore (hmacInitCore (hmacSetKeyCore H h key)) msg) =
      (hmacOf H key msg, zeroHmacState) := by
  have hk := hmacSetKeyCore_key_indep H h zeroHmacState key
  simp [hmacOf, hmacFinalCore, hmacUpdateCore, hmacInitCore,
    tc_sha256_update, tc_sha256_init, tc_sha256_final, hk]

/-- The byte stream `v₁ ‖ v₂ ‖ … ‖ vₙ` with `vᵢ₊₁ = HMAC(key, vᵢ)`
starting from `v`. -/
def hmacBlocks (H : List Nat → List Nat) (key : List Nat) :
    List Nat → Nat → List Nat
  | _, 0 => []
  | v, n + 1 => hmacOf H key v ++ hmacBlocks H key (hmacOf H key v) n

/-- The `n`-th iterate of `v ↦ HMAC(key, v)`. -/
def hmacIterV (H : List Nat → List Nat) (key v : List Nat) (n : Nat) :
    List Nat :=
  (hmacOf H key)^[n] v

lemma hmacIterV_zero (H : List Nat → List Nat) (key v : List Nat) :
    hmacIterV H key v 0 = v := rfl

lemma hmacIterV_succ_front (H : List Nat → List Nat) (key v : List Nat)
    (n : Nat) :
    hmacIterV H key v (n + 1) = hmacIterV H key (hmacOf H key v) n := by
  simp [hmacIterV, Function.iterate_succ_apply]

lemma hmacOf_length (H : List Nat → List Nat)
    (hH : ∀ m, (H m).length = 32) (key msg : List Nat) :
    (hmacOf H key msg).length = 32 := by
  simp only [hmacOf, hmacFinalCore, tc_sha256_final]
  exact hH _

/-- The output loop of `tc_hmac_prng_generate` emits exactly the first
`outlen` bytes of the HMAC-in-OFB-mode stream, leaves `v` at its
`⌈outlen/32⌉`-th iterate, and (when it ran at all) leaves the embedded HMAC
state wiped. -/
lemma generateLoop_spec (H : List Nat → List Nat)
    (hH : ∀ m, (H m).length = 32) (key : List Nat) :
    ∀ outlen v h, generateLoop H h key v outlen =
      ((hmacBlocks H key v ((outlen + 31) / 32)).take outlen,
       hmacIterV H key v ((outlen + 31) / 32),
       if outlen = 0 then h else zeroHmacState) := by
  intro outlen
  induction outlen using Nat.strong_induction_on with
  | _ outlen ih =>
    intro v h
    rw [generateLoop]
    by_cases h0 : outlen = 0
    · simp [h0, hmacBlocks, hmacIterV]
    · rw [if_neg h0]
      simp only [hmacRound]
      have hv1len : (hmacOf H key v).length = 32 := hmacOf_length H hH key v
      by_cases hgt : outlen > TC_SHA256_DIGEST_SIZE
      · -- more than one block remains
        have harith : (outlen + 31) / 32 = (outlen - 32 + 31) / 32 + 1 := by
          simp only [TC_SHA256_DIGEST_SIZE] at hgt
          omega
        rw [if_pos hgt,
          ih (outlen - TC_SHA256_DIGEST_SIZE)
            (by simp only [TC_SHA256_DIGEST_SIZE] at hgt ⊢; omega)]
        simp only [TC_SHA256_DIGEST_SIZE] at hgt ⊢
        rw [if_neg (by omega : ¬ 32 > outlen), harith]
        simp only [hmacBlocks, hmacIterV_succ_front, ite_self]
        rw [if_neg h0, List.take_append_eq_append_take, hv1len,
          show (hmacOf H key v).take outlen = hmacOf H key v from
            List.take_of_length_le (by omega),
          show (hmacOf H key v).take 32 = hmacOf H key v from by
            rw [← hv1len]; exact List.take_length _]
      · -- final block: at most 32 bytes remain
        have hle : outlen ≤ 32 := by
          simp only [TC_SHA256_DIGEST_SIZE] at hgt; omega
        have harith : (outlen + 31) / 32 = 1 := by omega
        rw [if_neg hgt, ih 0 (by omega)]
        simp only [TC_SHA256_DIGEST_SIZE] at hgt ⊢
        have hbuf : (if 32 > outlen then outlen else 32) = outlen := by
          by_cases hlt : 32 > outlen
          · rw [if_pos hlt]
          · rw [if_neg hlt]; omega
        rw [hbuf, harith]
        simp only [hmacBlocks, hmacIterV_succ_front, hmacIterV_zero,
          List.take_zero, List.append_nil]
        rw [if_neg h0]
        simp [hmacIterV_zero]

/-- The internal `update` run with no data and no additional data: one
pass only, `key ← HMAC(key, v ‖ 0x00)` then `v ← HMAC(key', v)`, HMAC state
wiped, countdown untouched. -/
lemma prngUpdate_nodata (H : List Nat → List Nat) (p : THmacPrng) :
    prngUpdate H p none none =
      { h := zeroHmacState,
        key := hmacOf H p.key (p.v ++ [0x00]),
        v := hmacOf H (hmacOf H p.key (p.v ++ [0x00])) p.v,
        countdown := p.countdown } := by
  simp only [prngUpdate, hmacUpdateCore_append, hmacRound]
  simp

/-- C3: with `countdown > 0` and `1 ≤ outlen ≤ 2^19`,
`tc_hmac_prng_generate` succeeds, writes the first `outlen` bytes of
`v₁ ‖ v₂ ‖ …` with `vᵢ₊₁ = HMAC(key, vᵢ)` (one block per 32 output bytes,
`⌈outlen/32⌉` iterations), decrements the countdown by exactly one, and
then applies the data-free internal update: `key ← HMAC(old key, v ‖ 0x00)`
followed by `v ← HMAC(new key, v)`, with `v` retaining the last block
before the update. -/
theorem prng_generate_stream (H : List Nat → List Nat)
    (hH : ∀ m, (H m).length = 32) (p : THmacPrng) (outlen : Nat)
    (hcd : 0 < p.countdown) (h1 : 1 ≤ outlen) (h2 : outlen ≤ MAX_OUT) :
    tc_hmac_prng_generate H true outlen (some p) =
      (.success,
       some ((hmacBlocks H p.key p.v ((outlen + 31) / 32)).take outlen),
       some { h := zeroHmacState,
              key := hmacOf H p.key
                (hmacIterV H p.key p.v ((outlen + 31) / 32) ++ [0x00]),
              v := hmacOf H
                (hmacOf H p.key
                  (hmacIterV H p.key p.v ((outlen + 31) / 32) ++ [0x00]))
                (hmacIterV H p.key p.v ((outlen + 31) / 32)),
              countdown := p.countdown - 1 }) := by
  simp only [tc_hmac_prng_generate]
  rw [if_neg (by simp [MAX_OUT] at h2 ⊢; omega),
    if_neg (by omega : ¬ p.countdown = 0)]
  rw [generateLoop_spec H hH p.key outlen p.v p.h, prngUpdate_nodata]

/-- C3 witness: one 33-byte request from a seeded sample state. -/
theorem prng_generate_stream_spot :
    tc_hmac_prng_generate constH true 33 (some samplePrng) =
      (.success,
       some ((hmacBlocks constH samplePrng.key samplePrng.v
         ((33 + 31) / 32)).take 33),
       some { h := zeroHmacState,
              key := hmacOf constH samplePrng.key
                (hmacIterV constH samplePrng.key samplePrng.v
                  ((33 + 31) / 32) ++ [0x00]),
              v := hmacOf constH
                (hmacOf constH samplePrng.key
                  (hmacIterV constH samplePrng.key samplePrng.v
                    ((33 + 31) / 32) ++ [0x00]))
                (hmacIterV constH samplePrng.key samplePrng.v
                  ((33 + 31) / 32)),
              countdown := samplePrng.countdown - 1 }) :=
  prng_generate_stream constH constH_length samplePrng 33 (by norm_num
    [samplePrng]) (by omega) (by norm_num [MAX_OUT])

/-- Every path through the internal `update` ends in a `tc_hmac_final`,
so the embedded HMAC state comes out wiped. -/
lemma prngUpdate_h (H : List Nat → List Nat) (p : THmacPrng)
    (data additional : Option (List Nat)) :
    (prngUpdate H p data additional).h = zeroHmacState := by
  simp only [prngUpdate]
  by_cases hd : data = none ∨ data = some []
  · rw [if_pos hd]
    rfl
  · rw [if_neg hd]
    rfl

/-- C10: whenever a public DRBG operation returns — with `SUCCESS`, `FAIL`
or `RESEED_REQUIRED` — the embedded HMAC state is entirely zero: a
successful `init` establishes the all-zero HMAC state, and `init`,
`reseed` and `generate` all preserve it on every path (every internal HMAC
computation ends with `tc_hmac_final`, which wipes the HMAC state). -/
theorem prng_embedded_hmac_wiped (H : List Nat → List Nat) :
    (∀ p pers p1, tc_hmac_prng_init H (some p) (some pers) =
        (.success, some p1) → p1.h = zeroHmacState) ∧
    (∀ prng pers p1, (∀ p, prng = some p → p.h = zeroHmacState) →
      (tc_hmac_prng_init H prng pers).2 = some p1 →
      p1.h = zeroHmacState) ∧
    (∀ prng seed add p1, (∀ p, prng = some p → p.h = zeroHmacState) →
      (tc_hmac_prng_reseed H prng seed add).2 = some p1 →
      p1.h = zeroHmacState) ∧
    (∀ outPtr outlen prng p1, (∀ p, prng = some p → p.h = zeroHmacState) →
      (tc_hmac_prng_generate H outPtr outlen prng).2.2 = some p1 →
      p1.h = zeroHmacState) := by
  refine ⟨?_, ?_, ?_, ?_⟩
  · intro p pers p1 heq
    simp only [tc_hmac_prng_init] at heq
    by_cases hlen : pers.length > MAX_PLEN
    · rw [if_pos hlen] at heq
      simp at heq
    · rw [if_neg hlen] at heq
      simp only [Prod.mk.injEq, Option.some.injEq] at heq
      rw [← heq.2]
      dsimp only
      exact prngUpdate_h H _ _ _
  · intro prng pers p1 hinv heq
    match prng, pers with
    | none, none => simp [tc_hmac_prng_init] at heq
    | none, some pers => simp [tc_hmac_prng_init] at heq
    | some p, none =>
        simp only [tc_hmac_prng_init, Option.some.injEq] at heq
        rw [← heq]
        exact hinv p rfl
    | some p, some pers =>
        simp only [tc_hmac_prng_init] at heq
        by_cases hlen : pers.length > MAX_PLEN
        · rw [if_pos hlen] at heq
          simp only [Option.some.injEq] at heq
          rw [← heq]
          exact hinv p rfl
        · rw [if_neg hlen] at heq
          simp only [Option.some.injEq] at heq
          rw [← heq]
          dsimp only
          exact prngUpdate_h H _ _ _
  · intro prng seed add p1 hinv heq
    match prng, seed with
    | none, none => simp [tc_hmac_prng_reseed] at heq
    | none, some s => simp [tc_hmac_prng_reseed] at heq
    | some p, none =>
        simp only [tc_hmac_prng_reseed, Option.some.injEq] at heq
        rw [← heq]
        exact hinv p rfl
    | some p, some s =>
        simp only [tc_hmac_prng_reseed] at heq
        by_cases hsl : s.length < MIN_SLEN ∨ s.length > MAX_SLEN
        · rw [if_pos hsl] at heq
          simp only [Option.some.injEq] at heq
          rw [← heq]
          exact hinv p rfl
        · rw [if_neg hsl] at heq
          match add with
          | none =>
              simp only [Option.some.injEq] at heq
              rw [← heq]
              dsimp only
              exact prngUpdate_h H _ _ _
          | some a =>
              dsimp only at heq
              by_cases hal : a.length = 0 ∨ a.length > MAX_ALEN
              · rw [if_pos hal] at heq
                simp only [Option.some.injEq] at heq
                rw [← heq]
                exact hinv p rfl
              · rw [if_neg hal] at heq
                simp only [Option.some.injEq] at heq
                rw [← heq]
                dsimp only
                exact prngUpdate_h H _ _ _
  · intro outPtr outlen prng p1 hinv heq
    match prng with
    | none => simp [tc_hmac_prng_generate] at heq
    | some p =>
        simp only [tc_hmac_prng_generate] at heq
        by_cases harg : outPtr = false ∨ outlen = 0 ∨ outlen > MAX_OUT
        · rw [if_pos harg] at heq
          simp only [Option.some.injEq] at heq
          rw [← heq]
          exact hinv p rfl
        · rw [if_neg harg] at heq
          by_cases hcd : p.countdown = 0
          · rw [if_pos hcd] at heq
            simp only [Option.some.injEq] at heq
            rw [← heq]
            exact hinv p rfl
          · rw [if_neg hcd] at heq
            simp only [Option.some.injEq] at heq
            rw [← heq]
            exact prngUpdate_h H _ _ _

/-- C10 witness: after instantiation, the embedded HMAC state reads as the
all-zero state. -/
theorem prng_embedded_hmac_wiped_spot :
    ({ prngUpdate constH
        { samplePrng with key := List.replicate 32 0x00,
                          v := List.replicate 32 0x01 }
        (some [7]) none with countdown := 0 } : THmacPrng).h =
      zeroHmacState :=
  (prng_embedded_hmac_wiped constH).1 samplePrng [7] _ rfl

end Tinycrypt
